import Mathlib

/-!
Verification of the room-membership / session-coordination engine of the
Colaborate_and_Code repository (Socket.IO collaborative editor backend).

The repository ships two server variants concatenated in one source file;
the specification (§9, Design Notes) adopts the strict acknowledgment-based
variant (the `io.on("connection")` handler around lines 293–536) as the
contract, and that variant is embedded here.

JavaScript `Map` objects (`rooms : Map<roomId, Map<socketId, User>>` and
`userSocketMap : Map<socketId, User>`) are modelled as association lists
with JS `Map` semantics: `set` replaces in place when the key exists and
appends otherwise (preserving insertion order), `delete` removes the entry,
iteration order is insertion order.  Missing/empty payload fields are
modelled as `Option String` with `falsy` covering both `undefined` and `""`.
Socket.IO emission targets (`socket.emit`, `io.to(room)`, `socket.to(room)`)
are modelled by the `Target` type, and delivery is resolved against the room
directory by `deliveredTo`.
-/

/-- A committed user record, as built by the strict join handler:
`{ id: socket.id, username, joinedAt: new Date().toISOString(), roomId }`. -/
structure User where
  id : String
  username : String
  joinedAt : String
  roomId : String
deriving DecidableEq, Repr

/-- Association list with JavaScript `Map` semantics (string keys). -/
abbrev JMap (β : Type) := List (String × β)

namespace JMap

/-- JS `Map.prototype.get`: the value at the first (unique) matching key. -/
def get (k : String) : JMap β → Option β
  | [] => none
  | (k', v) :: rest => if k' = k then some v else get k rest

/-- JS `Map.prototype.set`: replace in place when the key exists, append otherwise. -/
def set (k : String) (v : β) : JMap β → JMap β
  | [] => [(k, v)]
  | (k', v') :: rest => if k' = k then (k, v) :: rest else (k', v') :: set k v rest

/-- JS `Map.prototype.delete`: drop the entry with the given key. -/
def delete (k : String) : JMap β → JMap β
  | [] => []
  | (k', v) :: rest => if k' = k then delete k rest else (k', v) :: delete k rest

/-- JS `Map.prototype.has`. -/
def has (k : String) (m : JMap β) : Bool :=
  (get k m).isSome

/-- JS `Array.from(m.values())`: values in insertion order. -/
def values (m : JMap β) : List β :=
  m.map (·.2)

/-- JS `Map.prototype.size`. -/
def size (m : JMap β) : Nat :=
  m.length

/-- JS `Array.from(m.keys())`. -/
def keys (m : JMap β) : List String :=
  m.map (·.1)

end JMap

/-- The mutable module state of the strict server: the room directory
`const rooms = new Map()` and the connection registry
`const userSocketMap = new Map()`. -/
structure ServerState where
  rooms : JMap (JMap User)
  userSocketMap : JMap User
deriving DecidableEq, Repr

/-- Socket.IO emission target. -/
inductive Target where
  /-- Target of `socket.emit(...)` / `io.to(socketId).emit(...)`: one specific socket. -/
  | toSocket (sid : String)
  /-- Target of `io.to(roomId).emit(...)`: every member of the room. -/
  | toRoom (roomId : String)
  /-- Target of `socket.to(roomId).emit(...)`: every member of the room except the sender. -/
  | toRoomExcept (roomId : String) (sid : String)
deriving DecidableEq, Repr

/-- Payload shapes actually emitted by the strict server handlers. -/
inductive Payload where
  /-- Payload `{ error }` as sent with `username_exists`. -/
  | errorMsg (error : String)
  /-- Payload `{ socketId, username }`; the username is `undefined` when the
  registry has no record (`userSocketMap.get(socket.id)?.username`). -/
  | userLeft (socketId : String) (username : Option String)
  /-- Payload `{ user: { id, username, roomId }, users }` as sent with `join-accepted`. -/
  | joinAccepted (id username roomId : String) (users : List User)
  /-- Payload `{ user: { id, username, joinedAt }, roomId }` as sent with `user-joined`. -/
  | userJoined (id username joinedAt roomId : String)
  /-- Payload `{ code, cursorPos, filePath, sender, timestamp }` as sent with `code-update`. -/
  | codeUpdate (code cursorPos filePath sender : String) (timestamp : Nat)
  /-- Payload `{ message }` as sent with the generic `error` event. -/
  | errorMessage (message : String)
deriving DecidableEq, Repr

/-- One emitted Socket.IO event: target, event name, payload. -/
structure Emit where
  target : Target
  event : String
  payload : Payload
deriving DecidableEq, Repr

/-- The value passed to the join acknowledgment callback. -/
inductive Ack where
  /-- Ack `callback({ error })`. -/
  | ackError (error : String)
  /-- Ack `callback({ success: true, roomId, users, yourId })`. -/
  | ackSuccess (roomId : String) (users : List User) (yourId : String)
deriving DecidableEq, Repr

/-- A JS value read off an (optional, possibly empty) string payload field is
falsy exactly when it is `undefined` or `""`. -/
def falsy : Option String → Bool
  | none => true
  | some s => s = ""

/-- The helper `function getUsersInRoom(roomId)`:
`const room = rooms.get(roomId); return room ? Array.from(room.values()) : [];`. -/
def getUsersInRoom (rooms : JMap (JMap User)) (roomId : String) : List User :=
  match JMap.get roomId rooms with
  | some room => JMap.values room
  | none => []

/-- The helper `function getRoomForSocket(socketId)`: first room whose member map has the
socket, else `null`. -/
def getRoomForSocket (rooms : JMap (JMap User)) (socketId : String) : Option String :=
  (rooms.find? (fun p => JMap.has socketId p.2)).map (·.1)

/-- The "Leave any existing room" block of the strict join handler
(`const currentRoom = getRoomForSocket(socket.id); if (currentRoom) { ... }`):
returns the updated room directory and the notifications emitted.
`userSocketMap` is read (for the departing username) but not written here. -/
def leaveCurrentRoom (socketId : String) (st : ServerState) :
    JMap (JMap User) × List Emit :=
  match getRoomForSocket st.rooms socketId with
  | none => (st.rooms, [])
  | some currentRoom =>
    match JMap.get currentRoom st.rooms with
    | none => (st.rooms, [])
    | some roomUsers =>
      let roomUsers' := JMap.delete socketId roomUsers
      if JMap.size roomUsers' = 0 then
        (JMap.delete currentRoom st.rooms, [])
      else
        (JMap.set currentRoom roomUsers' st.rooms,
         [⟨.toRoomExcept currentRoom socketId, "user-left",
           .userLeft socketId ((JMap.get socketId st.userSocketMap).map User.username)⟩])

/-- The strict `socket.on("join-request", (data, callback) => ...)` handler.
Inputs are the destructured payload fields (`Option` models a missing field)
plus `now`, the value of `new Date().toISOString()`.  Returns the new state,
the emitted events in order, and the acknowledgment. -/
def joinRequest (socketId : String) (roomIdOpt usernameOpt : Option String)
    (now : String) (st : ServerState) : ServerState × List Emit × Ack :=
  -- if (!roomId || !username) return callback({ error });
  if falsy roomIdOpt || falsy usernameOpt then
    (st, [], .ackError "Room ID and username are required")
  else
    let roomId := roomIdOpt.getD ""
    let username := usernameOpt.getD ""
    -- const existingUser = Array.from(rooms.get(roomId)?.values() || [])
    --   .find(user => user.username === username && user.id !== socket.id);
    let usersHere := match JMap.get roomId st.rooms with
      | some room => JMap.values room
      | none => []
    match usersHere.find? (fun user => user.username == username && user.id != socketId) with
    | some _ =>
      -- socket.emit(username_exists, { error }); return callback({ error });
      let err := "Username \x27" ++ username ++ "\x27 is already taken in this room"
      (st, [⟨.toSocket socketId, "username_exists", .errorMsg err⟩], .ackError err)
    | none =>
      -- Leave any existing room
      let leave := leaveCurrentRoom socketId st
      let rooms1 := leave.1
      -- if (!rooms.has(roomId)) rooms.set(roomId, new Map());
      let rooms2 := if JMap.has roomId rooms1 then rooms1 else JMap.set roomId [] rooms1
      let user : User :=
        { id := socketId, username := username, joinedAt := now, roomId := roomId }
      -- rooms.get(roomId).set(socket.id, user); userSocketMap.set(socket.id, user);
      let rooms3 := JMap.set roomId (JMap.set socketId user ((JMap.get roomId rooms2).getD [])) rooms2
      let userSocketMap' := JMap.set socketId user st.userSocketMap
      let usersInRoom := getUsersInRoom rooms3 roomId
      ({ rooms := rooms3, userSocketMap := userSocketMap' },
       leave.2 ++
       [⟨.toSocket socketId, "join-accepted", .joinAccepted socketId username roomId usersInRoom⟩,
        ⟨.toRoomExcept roomId socketId, "user-joined", .userJoined socketId username now roomId⟩],
       .ackSuccess roomId usersInRoom socketId)

/-- The strict `socket.on("code-change", ...)` handler:
`if (!roomId) throw ...` (caught, re-emitted as an `error` event to the
sender), otherwise `socket.to(roomId).emit("code-update", {...})`. -/
def codeChange (socketId : String) (roomIdOpt : Option String)
    (code cursorPos filePath : String) (timestamp : Nat) (st : ServerState) :
    ServerState × List Emit :=
  if falsy roomIdOpt then
    (st, [⟨.toSocket socketId, "error", .errorMessage "Room ID is required"⟩])
  else
    (st, [⟨.toRoomExcept (roomIdOpt.getD "") socketId, "code-update",
          .codeUpdate code cursorPos filePath socketId timestamp⟩])

/-- The strict `socket.on("disconnect", (reason) => ...)` handler. -/
def disconnectHandler (socketId : String) (st : ServerState) :
    ServerState × List Emit :=
  match getRoomForSocket st.rooms socketId with
  | none => (st, [])
  | some roomId =>
    match JMap.get roomId st.rooms with
    | none => (st, [])
    | some room =>
      match JMap.get socketId room with
      | none => (st, [])
      | some user =>
        let room' := JMap.delete socketId room
        let userSocketMap' := JMap.delete socketId st.userSocketMap
        if JMap.size room' = 0 then
          ({ rooms := JMap.delete roomId st.rooms, userSocketMap := userSocketMap' }, [])
        else
          ({ rooms := JMap.set roomId room' st.rooms, userSocketMap := userSocketMap' },
           [⟨.toRoom roomId, "user-left", .userLeft socketId (some user.username)⟩])

/-- Inbound transport events relevant to the membership engine.  `leaveRoomEv`
is the `leave-room` emission of the client; the strict server registers no
listener for it. -/
inductive InEvent where
  | joinReq (socketId : String) (roomId username : Option String) (now : String)
  | codeChg (socketId : String) (roomId : Option String)
      (code cursorPos filePath : String) (timestamp : Nat)
  | leaveRoomEv (socketId : String) (roomId : Option String)
  | disconnectEv (socketId : String) (reason : String)

/-- One server step: dispatch an inbound event to its registered handler.
An event with no registered listener (`leave-room`) is dropped by Socket.IO
without touching any handler. -/
def step : InEvent → ServerState → ServerState × List Emit
  | .joinReq s r u now, st =>
    let res := joinRequest s r u now st
    (res.1, res.2.1)
  | .codeChg s r c p f t, st => codeChange s r c p f t st
  | .leaveRoomEv _ _, st => (st, [])
  | .disconnectEv s _, st => disconnectHandler s st

/-- The initial state: both module-level `Map`s start empty. -/
def initState : ServerState := ⟨[], []⟩

/-- States reachable from server start by any sequence of inbound events. -/
inductive Reachable : ServerState → Prop where
  | init : Reachable initState
  | next (e : InEvent) (st : ServerState) : Reachable st → Reachable (step e st).1

/-- Whether the socket `sid` receives emission `e`, with room targets resolved
against the given room directory. -/
def deliveredTo (rooms : JMap (JMap User)) (sid : String) (e : Emit) : Bool :=
  match e.target with
  | .toSocket s => sid = s
  | .toRoom r => JMap.has sid ((JMap.get r rooms).getD [])
  | .toRoomExcept r s => sid ≠ s && JMap.has sid ((JMap.get r rooms).getD [])

/-! ### Basic lemmas about the `JMap` operations -/

namespace JMap

variable {β : Type}

theorem get_set_self (k : String) (v : β) (m : JMap β) :
    get k (set k v m) = some v := by
  induction m with
  | nil => simp [get, set]
  | cons p rest ih =>
    by_cases h : p.1 = k <;> simp [get, set, h, ih]

theorem get_set_ne (k k' : String) (v : β) (m : JMap β) (h : k' ≠ k) :
    get k' (set k v m) = get k' m := by
  have h' : k ≠ k' := Ne.symm h
  induction m with
  | nil => simp [get, set, h']
  | cons p rest ih =>
    by_cases hp : p.1 = k
    · subst hp
      simp [get, set, h']
    · by_cases hp' : p.1 = k' <;> simp [get, set, hp, hp', h, ih]

theorem get_delete_self (k : String) (m : JMap β) :
    get k (delete k m) = none := by
  induction m with
  | nil => simp [delete, get]
  | cons p rest ih =>
    by_cases h : p.1 = k <;> simp [delete, get, h, ih]

theorem get_delete_ne (k k' : String) (m : JMap β) (h : k' ≠ k) :
    get k' (delete k m) = get k' m := by
  induction m with
  | nil => simp [delete]
  | cons p rest ih =>
    by_cases hp : p.1 = k
    · simp [delete, get, hp, Ne.symm h, ih]
    · by_cases hp' : p.1 = k' <;> simp [delete, get, hp, hp', h, Ne.symm h, ih]

theorem has_set (k k' : String) (v : β) (m : JMap β) :
    has k' (set k v m) = true ↔ (k' = k ∨ has k' m = true) := by
  by_cases h : k' = k
  · subst h; simp [has, get_set_self]
  · simp [has, get_set_ne _ _ _ _ h, h]

theorem has_delete (k k' : String) (m : JMap β) :
    has k' (delete k m) = true ↔ (k' ≠ k ∧ has k' m = true) := by
  by_cases h : k' = k
  · subst h; simp [has, get_delete_self]
  · simp [has, get_delete_ne _ _ _ h, h]

theorem mem_set (k : String) (v : β) (m : JMap β) (q : String × β) :
    q ∈ set k v m → q = (k, v) ∨ q ∈ m := by
  induction m with
  | nil =>
    intro hq
    simp [set] at hq
    exact Or.inl hq
  | cons p rest ih =>
    intro hq
    by_cases h : p.1 = k
    · simp only [set, if_pos h, List.mem_cons] at hq
      rcases hq with rfl | hq'
      · exact Or.inl rfl
      · exact Or.inr (List.mem_cons_of_mem _ hq')
    · simp only [set, if_neg h, List.mem_cons] at hq
      rcases hq with rfl | hq'
      · exact Or.inr (List.mem_cons_self _ _)
      · rcases ih hq' with h1 | h1
        · exact Or.inl h1
        · exact Or.inr (List.mem_cons_of_mem _ h1)

theorem set_eq_append (k : String) (v : β) (m : JMap β) (h : has k m = false) :
    set k v m = m ++ [(k, v)] := by
  induction m with
  | nil => simp [set]
  | cons p rest ih =>
    have hp : p.1 ≠ k := by
      intro hh
      simp [has, get, hh] at h
    simp only [has, get, if_neg hp] at h
    simp [set, hp, ih h]

theorem set_set (k : String) (v w : β) (m : JMap β) :
    set k v (set k w m) = set k v m := by
  induction m with
  | nil => simp [set]
  | cons p rest ih =>
    by_cases h : p.1 = k <;> simp [set, h, ih]

theorem keys_set_of_has (k : String) (v : β) (m : JMap β) (h : has k m = true) :
    keys (set k v m) = keys m := by
  induction m with
  | nil => simp [has, get] at h
  | cons p rest ih =>
    by_cases hp : p.1 = k
    · simp [keys, set, hp]
    · simp only [has, get, if_neg hp] at h
      simp only [set, if_neg hp, keys, List.map_cons]
      exact congrArg (p.1 :: ·) (ih h)

theorem delete_sublist (k : String) (m : JMap β) :
    List.Sublist (delete k m) m := by
  induction m with
  | nil => simp [delete]
  | cons p rest ih =>
    by_cases h : p.1 = k
    · simp only [delete, if_pos h]
      exact List.Sublist.cons p ih
    · simp only [delete, if_neg h]
      exact List.Sublist.cons₂ p ih

theorem mem_delete (k : String) (m : JMap β) (q : String × β) :
    q ∈ delete k m ↔ q ∈ m ∧ q.1 ≠ k := by
  induction m with
  | nil => simp [delete]
  | cons p rest ih =>
    by_cases h : p.1 = k
    · simp only [delete, if_pos h, List.mem_cons, ih]
      constructor
      · rintro ⟨hq, hne⟩
        exact ⟨Or.inr hq, hne⟩
      · rintro ⟨hq | hq, hne⟩
        · exact absurd (show q.1 = k by rw [hq]; exact h) hne
        · exact ⟨hq, hne⟩
    · simp only [delete, if_neg h, List.mem_cons, ih]
      constructor
      · rintro (rfl | ⟨hq, hne⟩)
        · exact ⟨Or.inl rfl, h⟩
        · exact ⟨Or.inr hq, hne⟩
      · rintro ⟨hq | hq, hne⟩
        · exact Or.inl hq
        · exact Or.inr ⟨hq, hne⟩

theorem get_eq_none_iff (k : String) (m : JMap β) :
    get k m = none ↔ k ∉ keys m := by
  induction m with
  | nil => simp [get, keys]
  | cons p rest ih =>
    by_cases h : p.1 = k
    · simp [get, keys, h]
    · simp [get, keys, h, Ne.symm h, ih]

theorem get_some_mem (k : String) (v : β) (m : JMap β) (h : get k m = some v) :
    (k, v) ∈ m := by
  induction m with
  | nil => simp [get] at h
  | cons p rest ih =>
    by_cases hp : p.1 = k
    · simp only [get, if_pos hp, Option.some.injEq] at h
      subst h
      subst hp
      exact List.mem_cons_self _ _
    · simp only [get, if_neg hp] at h
      exact List.mem_cons_of_mem _ (ih h)

theorem get_of_mem_nodup (k : String) (v : β) (m : JMap β)
    (hnd : (keys m).Nodup) (hq : (k, v) ∈ m) : get k m = some v := by
  induction m with
  | nil => simp at hq
  | cons p rest ih =>
    simp only [keys, List.map_cons, List.nodup_cons] at hnd
    rcases List.mem_cons.mp hq with hq' | hq'
    · rw [← hq']
      simp [get]
    · have hk : p.1 ≠ k := by
        intro hh
        apply hnd.1
        rw [hh]
        exact List.mem_map_of_mem Prod.fst hq'
      simp only [get, if_neg hk]
      exact ih hnd.2 hq'

theorem has_iff_mem_keys (k : String) (m : JMap β) :
    has k m = true ↔ k ∈ keys m := by
  unfold has
  rw [Option.isSome_iff_ne_none]
  constructor
  · intro h
    by_contra hk
    exact h ((get_eq_none_iff k m).mpr hk)
  · intro h hnone
    exact (get_eq_none_iff k m).mp hnone h

theorem mem_values (m : JMap β) (v : β) :
    v ∈ values m ↔ ∃ q ∈ m, q.2 = v := by
  simp [values]

theorem mem_values_of_get (k : String) (v : β) (m : JMap β)
    (h : get k m = some v) : v ∈ values m :=
  List.mem_map_of_mem Prod.snd (get_some_mem _ _ _ h)

theorem size_eq_zero (m : JMap β) : size m = 0 ↔ m = [] := by
  simp [size, List.length_eq_zero]

theorem keys_delete_sublist (k : String) (m : JMap β) :
    List.Sublist (keys (delete k m)) (keys m) :=
  List.Sublist.map _ (delete_sublist k m)

end JMap

namespace JMap

theorem set_ne_nil (k : String) (v : β) (m : JMap β) : set k v m ≠ [] := by
  cases m with
  | nil => simp [set]
  | cons p rest =>
    by_cases h : p.1 = k <;> simp [set, h]

theorem mem_set_nodup (k : String) (v : β) (m : JMap β) (q : String × β)
    (hnd : (keys m).Nodup) (hq : q ∈ set k v m) :
    q = (k, v) ∨ (q ∈ m ∧ q.1 ≠ k) := by
  induction m with
  | nil =>
    simp [set] at hq
    exact Or.inl hq
  | cons p rest ih =>
    simp only [keys, List.map_cons, List.nodup_cons] at hnd
    by_cases h : p.1 = k
    · simp only [set, if_pos h, List.mem_cons] at hq
      rcases hq with rfl | hq'
      · exact Or.inl rfl
      · right
        refine ⟨List.mem_cons_of_mem _ hq', ?_⟩
        intro hk
        apply hnd.1
        rw [h, ← hk]
        exact List.mem_map_of_mem Prod.fst hq'
    · simp only [set, if_neg h, List.mem_cons] at hq
      rcases hq with rfl | hq'
      · exact Or.inr ⟨List.mem_cons_self _ _, h⟩
      · rcases ih hnd.2 hq' with h1 | ⟨h1, h2⟩
        · exact Or.inl h1
        · exact Or.inr ⟨List.mem_cons_of_mem _ h1, h2⟩

theorem eq_of_mem_of_nodup_keys (m : JMap β) (p q : String × β)
    (hnd : (keys m).Nodup) (hp : p ∈ m) (hq : q ∈ m) (hk : p.1 = q.1) : p = q := by
  have h1 : get p.1 m = some p.2 := get_of_mem_nodup _ _ _ hnd hp
  have h2 : get q.1 m = some q.2 := get_of_mem_nodup _ _ _ hnd hq
  rw [hk, h2] at h1
  exact Prod.ext hk (Option.some.inj h1).symm

theorem keys_set_nodup (k : String) (v : β) (m : JMap β)
    (hnd : (keys m).Nodup) : (keys (set k v m)).Nodup := by
  by_cases h : has k m = true
  · rw [keys_set_of_has _ _ _ h]
    exact hnd
  · have h' : has k m = false := by simpa using h
    have hk : k ∉ keys m := by
      rw [← get_eq_none_iff]
      simpa [has] using h'
    rw [set_eq_append _ _ _ h']
    have : keys (m ++ [(k, v)]) = keys m ++ [k] := by simp [keys]
    rw [this]
    refine List.Nodup.append hnd (List.nodup_singleton k) ?_
    intro a ha hmem
    simp only [List.mem_singleton] at hmem
    exact hk (hmem ▸ ha)

theorem has_eq_false_iff (k : String) (m : JMap β) :
    has k m = false ↔ get k m = none := by
  unfold has
  cases get k m <;> simp

theorem getD_nil_values_mem (r : Option (JMap β)) (u : β)
    (h : u ∈ values (r.getD [])) : ∃ m, r = some m ∧ u ∈ values m := by
  cases r with
  | none => simp [values] at h
  | some m => exact ⟨m, rfl, h⟩

end JMap

/-! ### The inductive well-formedness invariant of the strict server -/

/-- Well-formedness of the server state.  These are the structural facts that
hold at start-up and are preserved by every strict handler; the membership
invariants of the specification (§3) are consequences. -/
structure WF (st : ServerState) : Prop where
  /-- Room ids in the directory are pairwise distinct. -/
  roomKeys : (JMap.keys st.rooms).Nodup
  /-- Member socket ids within a room are pairwise distinct. -/
  memKeys : ∀ p ∈ st.rooms, (JMap.keys p.2).Nodup
  /-- No room in the directory is empty. -/
  roomNonempty : ∀ p ∈ st.rooms, p.2 ≠ []
  /-- The `id` field of a member record is its key in the member map. -/
  idEq : ∀ p ∈ st.rooms, ∀ q ∈ p.2, q.2.id = q.1
  /-- The `roomId` field of a member record is the room it is stored in. -/
  roomIdEq : ∀ p ∈ st.rooms, ∀ q ∈ p.2, q.2.roomId = p.1
  /-- Member usernames within a room are pairwise distinct. -/
  unames : ∀ p ∈ st.rooms, ((JMap.values p.2).map User.username).Nodup
  /-- The connection registry agrees with the room directory: every member
  record is also the registry record of its socket. -/
  registry : ∀ p ∈ st.rooms, ∀ q ∈ p.2, JMap.get q.1 st.userSocketMap = some q.2

theorem wf_init : WF initState := by
  constructor <;> simp [initState, JMap.keys]

/-- Two directory entries sharing a member are the same entry: each connection
is in at most one room (invariant 1 of §3, derived from the registry link). -/
theorem WF.disjointRooms {st : ServerState} (h : WF st) {p q : String × JMap User}
    (hp : p ∈ st.rooms) (hq : q ∈ st.rooms) {sid : String}
    (hsp : JMap.has sid p.2 = true) (hsq : JMap.has sid q.2 = true) : p = q := by
  obtain ⟨u1, hu1⟩ := Option.isSome_iff_exists.mp hsp
  obtain ⟨u2, hu2⟩ := Option.isSome_iff_exists.mp hsq
  have hm1 : (sid, u1) ∈ p.2 := JMap.get_some_mem _ _ _ hu1
  have hm2 : (sid, u2) ∈ q.2 := JMap.get_some_mem _ _ _ hu2
  have hr1 := h.registry p hp (sid, u1) hm1
  have hr2 := h.registry q hq (sid, u2) hm2
  rw [hr1] at hr2
  have hu : u1 = u2 := Option.some.inj hr2
  have hroom1 := h.roomIdEq p hp (sid, u1) hm1
  have hroom2 := h.roomIdEq q hq (sid, u2) hm2
  have hkeys : p.1 = q.1 := by
    rw [← hroom1, ← hroom2, hu]
  exact JMap.eq_of_mem_of_nodup_keys st.rooms p q h.roomKeys hp hq hkeys

/-! ### Lemmas about `getRoomForSocket` -/

theorem getRoomForSocket_eq_none_iff (rooms : JMap (JMap User)) (sid : String) :
    getRoomForSocket rooms sid = none ↔ ∀ p ∈ rooms, JMap.has sid p.2 = false := by
  simp [getRoomForSocket, List.find?_eq_none]

theorem getRoomForSocket_some (rooms : JMap (JMap User)) (sid r : String)
    (h : getRoomForSocket rooms sid = some r) :
    ∃ m, (r, m) ∈ rooms ∧ JMap.has sid m = true := by
  simp only [getRoomForSocket, Option.map_eq_some'] at h
  obtain ⟨p, hfind, hr⟩ := h
  have hpred : JMap.has sid p.2 = true := by
    have hh := List.find?_some hfind
    simpa using hh
  refine ⟨p.2, ?_, hpred⟩
  rw [← hr]
  exact List.mem_of_find?_eq_some hfind

theorem getRoomForSocket_get (rooms : JMap (JMap User)) (sid r : String)
    (hnd : (JMap.keys rooms).Nodup) (h : getRoomForSocket rooms sid = some r) :
    ∃ m, JMap.get r rooms = some m ∧ JMap.has sid m = true := by
  obtain ⟨m, hm, hhas⟩ := getRoomForSocket_some _ _ _ h
  exact ⟨m, JMap.get_of_mem_nodup _ _ _ hnd hm, hhas⟩

/-! ### Branch equations and properties of the implicit leave -/

theorem leaveCurrentRoom_none_eq (socketId : String) (st : ServerState)
    (hg : getRoomForSocket st.rooms socketId = none) :
    leaveCurrentRoom socketId st = (st.rooms, []) := by
  unfold leaveCurrentRoom
  rw [hg]

theorem leaveCurrentRoom_del_eq (socketId currentRoom : String) (st : ServerState)
    (mcur : JMap User)
    (hg : getRoomForSocket st.rooms socketId = some currentRoom)
    (hmcur : JMap.get currentRoom st.rooms = some mcur)
    (hsz : JMap.size (JMap.delete socketId mcur) = 0) :
    leaveCurrentRoom socketId st = (JMap.delete currentRoom st.rooms, []) := by
  unfold leaveCurrentRoom
  simp only [hg, hmcur]
  simp [hsz]

theorem leaveCurrentRoom_set_eq (socketId currentRoom : String) (st : ServerState)
    (mcur : JMap User)
    (hg : getRoomForSocket st.rooms socketId = some currentRoom)
    (hmcur : JMap.get currentRoom st.rooms = some mcur)
    (hsz : ¬ JMap.size (JMap.delete socketId mcur) = 0) :
    leaveCurrentRoom socketId st =
      (JMap.set currentRoom (JMap.delete socketId mcur) st.rooms,
       [⟨.toRoomExcept currentRoom socketId, "user-left",
         .userLeft socketId ((JMap.get socketId st.userSocketMap).map User.username)⟩]) := by
  unfold leaveCurrentRoom
  simp only [hg, hmcur]
  simp [hsz]

/-- Deleting a whole room preserves well-formedness. -/
theorem wf_delete_room (st : ServerState) (h : WF st) (r : String) :
    WF ⟨JMap.delete r st.rooms, st.userSocketMap⟩ := by
  constructor
  · exact List.Nodup.sublist (JMap.keys_delete_sublist _ _) h.roomKeys
  · intro p hp; exact h.memKeys p ((JMap.mem_delete _ _ _).mp hp).1
  · intro p hp; exact h.roomNonempty p ((JMap.mem_delete _ _ _).mp hp).1
  · intro p hp; exact h.idEq p ((JMap.mem_delete _ _ _).mp hp).1
  · intro p hp; exact h.roomIdEq p ((JMap.mem_delete _ _ _).mp hp).1
  · intro p hp; exact h.unames p ((JMap.mem_delete _ _ _).mp hp).1
  · intro p hp; exact h.registry p ((JMap.mem_delete _ _ _).mp hp).1

/-- Replacing a room by a nonempty sub-map of itself preserves well-formedness. -/
theorem wf_shrink_room (st : ServerState) (h : WF st) (r socketId : String)
    (mcur : JMap User) (hmcur : JMap.get r st.rooms = some mcur)
    (hne : JMap.delete socketId mcur ≠ []) :
    WF ⟨JMap.set r (JMap.delete socketId mcur) st.rooms, st.userSocketMap⟩ := by
  have hmem : (r, mcur) ∈ st.rooms := JMap.get_some_mem _ _ _ hmcur
  have hhas : JMap.has r st.rooms = true := by simp [JMap.has, hmcur]
  constructor
  · rw [JMap.keys_set_of_has _ _ _ hhas]
    exact h.roomKeys
  · intro p hp
    rcases JMap.mem_set_nodup _ _ _ _ h.roomKeys hp with rfl | ⟨hpm, _⟩
    · exact List.Nodup.sublist (JMap.keys_delete_sublist _ _) (h.memKeys _ hmem)
    · exact h.memKeys p hpm
  · intro p hp
    rcases JMap.mem_set_nodup _ _ _ _ h.roomKeys hp with rfl | ⟨hpm, _⟩
    · exact hne
    · exact h.roomNonempty p hpm
  · intro p hp
    rcases JMap.mem_set_nodup _ _ _ _ h.roomKeys hp with rfl | ⟨hpm, _⟩
    · intro q hq
      exact h.idEq _ hmem q ((JMap.mem_delete _ _ _).mp hq).1
    · exact h.idEq p hpm
  · intro p hp
    rcases JMap.mem_set_nodup _ _ _ _ h.roomKeys hp with rfl | ⟨hpm, _⟩
    · intro q hq
      exact h.roomIdEq _ hmem q ((JMap.mem_delete _ _ _).mp hq).1
    · exact h.roomIdEq p hpm
  · intro p hp
    rcases JMap.mem_set_nodup _ _ _ _ h.roomKeys hp with rfl | ⟨hpm, _⟩
    · have hsub : List.Sublist (JMap.values (JMap.delete socketId mcur)) (JMap.values mcur) :=
        List.Sublist.map _ (JMap.delete_sublist _ _)
      exact List.Nodup.sublist (hsub.map _) (h.unames _ hmem)
    · exact h.unames p hpm
  · intro p hp
    rcases JMap.mem_set_nodup _ _ _ _ h.roomKeys hp with rfl | ⟨hpm, _⟩
    · intro q hq
      exact h.registry _ hmem q ((JMap.mem_delete _ _ _).mp hq).1
    · exact h.registry p hpm

/-- After the implicit leave, the socket is a member of no room. -/
theorem leaveCurrentRoom_not_member (socketId : String) (st : ServerState) (h : WF st) :
    ∀ p ∈ (leaveCurrentRoom socketId st).1, JMap.has socketId p.2 = false := by
  cases hg : getRoomForSocket st.rooms socketId with
  | none =>
    simp only [leaveCurrentRoom_none_eq _ _ hg]
    intro p hp
    exact (getRoomForSocket_eq_none_iff _ _).mp hg p hp
  | some currentRoom =>
    obtain ⟨mcur, hmcur, hhascur⟩ := getRoomForSocket_get _ _ _ h.roomKeys hg
    have hmem : (currentRoom, mcur) ∈ st.rooms := JMap.get_some_mem _ _ _ hmcur
    by_cases hsz : JMap.size (JMap.delete socketId mcur) = 0
    · simp only [leaveCurrentRoom_del_eq _ _ _ _ hg hmcur hsz]
      intro p hp
      obtain ⟨hpm, hpk⟩ := (JMap.mem_delete _ _ _).mp hp
      cases hb : JMap.has socketId p.2
      · rfl
      · exfalso
        have hpq := h.disjointRooms hpm hmem hb hhascur
        exact hpk (by rw [hpq])
    · simp only [leaveCurrentRoom_set_eq _ _ _ _ hg hmcur hsz]
      intro p hp
      rcases JMap.mem_set_nodup _ _ _ _ h.roomKeys hp with rfl | ⟨hpm, hpk⟩
      · simp [JMap.has, JMap.get_delete_self]
      · cases hb : JMap.has socketId p.2
        · rfl
        · exfalso
          have hpq := h.disjointRooms hpm hmem hb hhascur
          exact hpk (by rw [hpq])

/-- The implicit leave only ever shrinks a room: values after are values before. -/
theorem leaveCurrentRoom_values_sub (socketId : String) (st : ServerState) (h : WF st) :
    ∀ r, ∀ u ∈ JMap.values ((JMap.get r (leaveCurrentRoom socketId st).1).getD []),
      u ∈ JMap.values ((JMap.get r st.rooms).getD []) := by
  intro r u hu
  cases hg : getRoomForSocket st.rooms socketId with
  | none =>
    simp only [leaveCurrentRoom_none_eq _ _ hg] at hu
    exact hu
  | some currentRoom =>
    obtain ⟨mcur, hmcur, hhascur⟩ := getRoomForSocket_get _ _ _ h.roomKeys hg
    by_cases hsz : JMap.size (JMap.delete socketId mcur) = 0
    · simp only [leaveCurrentRoom_del_eq _ _ _ _ hg hmcur hsz] at hu
      by_cases hr : r = currentRoom
      · subst hr
        rw [JMap.get_delete_self] at hu
        simp [JMap.values] at hu
      · rw [JMap.get_delete_ne _ _ _ hr] at hu
        exact hu
    · simp only [leaveCurrentRoom_set_eq _ _ _ _ hg hmcur hsz] at hu
      by_cases hr : r = currentRoom
      · subst hr
        rw [JMap.get_set_self] at hu
        rw [hmcur]
        simp only [Option.getD_some] at hu ⊢
        obtain ⟨q, hq, rfl⟩ := (JMap.mem_values _ _).mp hu
        exact (JMap.mem_values _ _).mpr ⟨q, ((JMap.mem_delete _ _ _).mp hq).1, rfl⟩
      · rw [JMap.get_set_ne _ _ _ _ hr] at hu
        exact hu

/-- Well-formedness is preserved by the implicit leave (registry untouched). -/
theorem leaveCurrentRoom_wf (socketId : String) (st : ServerState) (h : WF st) :
    WF ⟨(leaveCurrentRoom socketId st).1, st.userSocketMap⟩ := by
  cases hg : getRoomForSocket st.rooms socketId with
  | none =>
    simp only [leaveCurrentRoom_none_eq _ _ hg]
    exact ⟨h.roomKeys, h.memKeys, h.roomNonempty, h.idEq, h.roomIdEq, h.unames, h.registry⟩
  | some currentRoom =>
    obtain ⟨mcur, hmcur, hhascur⟩ := getRoomForSocket_get _ _ _ h.roomKeys hg
    by_cases hsz : JMap.size (JMap.delete socketId mcur) = 0
    · simp only [leaveCurrentRoom_del_eq _ _ _ _ hg hmcur hsz]
      exact wf_delete_room st h currentRoom
    · simp only [leaveCurrentRoom_set_eq _ _ _ _ hg hmcur hsz]
      exact wf_shrink_room st h currentRoom socketId mcur hmcur
        (fun hnil => hsz ((JMap.size_eq_zero _).mpr hnil))

/-! ### Branch equations of the join handler -/

theorem getUsersInRoom_eq (rooms : JMap (JMap User)) (r : String) :
    getUsersInRoom rooms r = JMap.values ((JMap.get r rooms).getD []) := by
  unfold getUsersInRoom
  cases JMap.get r rooms <;> simp [JMap.values]

theorem usersHere_eq (rooms : JMap (JMap User)) (roomId : String) :
    (match JMap.get roomId rooms with
      | some room => JMap.values room
      | none => []) = getUsersInRoom rooms roomId := by
  unfold getUsersInRoom
  rfl

/-- The two-step room creation (`if (!rooms.has(roomId)) rooms.set(roomId, new
Map()); rooms.get(roomId).set(socket.id, user)`) collapses to one update. -/
theorem join_commit_collapse (roomId socketId : String) (user : User)
    (rooms1 : JMap (JMap User)) :
    JMap.set roomId
      (JMap.set socketId user
        ((JMap.get roomId
          (if JMap.has roomId rooms1 then rooms1 else JMap.set roomId [] rooms1)).getD []))
      (if JMap.has roomId rooms1 then rooms1 else JMap.set roomId [] rooms1)
    = JMap.set roomId (JMap.set socketId user ((JMap.get roomId rooms1).getD [])) rooms1 := by
  by_cases h : JMap.has roomId rooms1
  · simp [h]
  · have hget : JMap.get roomId rooms1 = none :=
      (JMap.has_eq_false_iff _ _).mp (by simpa using h)
    simp [h, hget, JMap.get_set_self, JMap.set_set]

theorem joinRequest_invalid_eq (socketId : String) (roomIdOpt usernameOpt : Option String)
    (now : String) (st : ServerState)
    (hv : (falsy roomIdOpt || falsy usernameOpt) = true) :
    joinRequest socketId roomIdOpt usernameOpt now st
      = (st, [], .ackError "Room ID and username are required") := by
  unfold joinRequest
  rw [if_pos hv]

theorem joinRequest_conflict_eq (socketId : String) (roomIdOpt usernameOpt : Option String)
    (now : String) (st : ServerState) (u : User)
    (hv : (falsy roomIdOpt || falsy usernameOpt) = false)
    (hfind : (getUsersInRoom st.rooms (roomIdOpt.getD "")).find?
        (fun user => user.username == usernameOpt.getD "" && user.id != socketId) = some u) :
    joinRequest socketId roomIdOpt usernameOpt now st
      = (st,
         [⟨.toSocket socketId, "username_exists",
           .errorMsg ("Username \x27" ++ usernameOpt.getD "" ++ "\x27 is already taken in this room")⟩],
         .ackError ("Username \x27" ++ usernameOpt.getD "" ++ "\x27 is already taken in this room")) := by
  unfold joinRequest
  rw [if_neg (by simp [hv])]
  simp only [usersHere_eq, hfind]

theorem joinRequest_success_eq (socketId : String) (roomIdOpt usernameOpt : Option String)
    (now : String) (st : ServerState)
    (hv : (falsy roomIdOpt || falsy usernameOpt) = false)
    (hfind : (getUsersInRoom st.rooms (roomIdOpt.getD "")).find?
        (fun user => user.username == usernameOpt.getD "" && user.id != socketId) = none) :
    joinRequest socketId roomIdOpt usernameOpt now st =
      ({ rooms := JMap.set (roomIdOpt.getD "")
            (JMap.set socketId ⟨socketId, usernameOpt.getD "", now, roomIdOpt.getD ""⟩
              ((JMap.get (roomIdOpt.getD "") (leaveCurrentRoom socketId st).1).getD []))
            (leaveCurrentRoom socketId st).1,
          userSocketMap := JMap.set socketId
            ⟨socketId, usernameOpt.getD "", now, roomIdOpt.getD ""⟩ st.userSocketMap },
       (leaveCurrentRoom socketId st).2 ++
       [⟨.toSocket socketId, "join-accepted",
         .joinAccepted socketId (usernameOpt.getD "") (roomIdOpt.getD "")
           (getUsersInRoom
             (JMap.set (roomIdOpt.getD "")
               (JMap.set socketId ⟨socketId, usernameOpt.getD "", now, roomIdOpt.getD ""⟩
                 ((JMap.get (roomIdOpt.getD "") (leaveCurrentRoom socketId st).1).getD []))
               (leaveCurrentRoom socketId st).1)
             (roomIdOpt.getD ""))⟩,
        ⟨.toRoomExcept (roomIdOpt.getD "") socketId, "user-joined",
         .userJoined socketId (usernameOpt.getD "") now (roomIdOpt.getD "")⟩],
       .ackSuccess (roomIdOpt.getD "")
         (getUsersInRoom
           (JMap.set (roomIdOpt.getD "")
             (JMap.set socketId ⟨socketId, usernameOpt.getD "", now, roomIdOpt.getD ""⟩
               ((JMap.get (roomIdOpt.getD "") (leaveCurrentRoom socketId st).1).getD []))
             (leaveCurrentRoom socketId st).1)
           (roomIdOpt.getD ""))
         socketId) := by
  unfold joinRequest
  rw [if_neg (by simp [hv])]
  simp only [usersHere_eq, hfind, join_commit_collapse]

/-- Committing a join into the target room preserves well-formedness, provided
the joining socket is in no room and no other member of the target room holds
the username. -/
theorem wf_commit_join (st1 : ServerState) (h1 : WF st1)
    (socketId roomId username now : String)
    (hnm : ∀ p ∈ st1.rooms, JMap.has socketId p.2 = false)
    (hnc : ∀ u ∈ JMap.values ((JMap.get roomId st1.rooms).getD []),
      u.username = username → u.id = socketId) :
    WF ⟨JMap.set roomId
          (JMap.set socketId ⟨socketId, username, now, roomId⟩
            ((JMap.get roomId st1.rooms).getD []))
          st1.rooms,
        JMap.set socketId ⟨socketId, username, now, roomId⟩ st1.userSocketMap⟩ := by
  have hbase_facts : ((JMap.get roomId st1.rooms).getD [] = []) ∨
      (roomId, (JMap.get roomId st1.rooms).getD []) ∈ st1.rooms := by
    cases hgb : JMap.get roomId st1.rooms with
    | none => exact Or.inl rfl
    | some m =>
      right
      simpa using JMap.get_some_mem _ _ _ hgb
  have hbase_nodup : (JMap.keys ((JMap.get roomId st1.rooms).getD [])).Nodup := by
    rcases hbase_facts with he | hm
    · rw [he]; simp [JMap.keys]
    · exact h1.memKeys _ hm
  have hbase_idEq : ∀ q ∈ (JMap.get roomId st1.rooms).getD [], q.2.id = q.1 := by
    rcases hbase_facts with he | hm
    · rw [he]; simp
    · exact h1.idEq _ hm
  have hbase_roomIdEq : ∀ q ∈ (JMap.get roomId st1.rooms).getD [], q.2.roomId = roomId := by
    rcases hbase_facts with he | hm
    · rw [he]; simp
    · exact h1.roomIdEq _ hm
  have hbase_unames :
      ((JMap.values ((JMap.get roomId st1.rooms).getD [])).map User.username).Nodup := by
    rcases hbase_facts with he | hm
    · rw [he]; simp [JMap.values]
    · exact h1.unames _ hm
  have hbase_registry : ∀ q ∈ (JMap.get roomId st1.rooms).getD [],
      JMap.get q.1 st1.userSocketMap = some q.2 := by
    rcases hbase_facts with he | hm
    · rw [he]; simp
    · exact h1.registry _ hm
  have hbase_nosock : JMap.has socketId ((JMap.get roomId st1.rooms).getD []) = false := by
    rcases hbase_facts with he | hm
    · rw [he]; simp [JMap.has, JMap.get]
    · exact hnm _ hm
  have hnosock_keys : socketId ∉ JMap.keys ((JMap.get roomId st1.rooms).getD []) := by
    intro hk
    have hx := (JMap.has_iff_mem_keys _ _).mpr hk
    rw [hbase_nosock] at hx
    exact absurd hx (by decide)
  constructor
  · exact JMap.keys_set_nodup _ _ _ h1.roomKeys
  · intro p hp
    rcases JMap.mem_set_nodup _ _ _ _ h1.roomKeys hp with rfl | ⟨hpm, _⟩
    · exact JMap.keys_set_nodup _ _ _ hbase_nodup
    · exact h1.memKeys p hpm
  · intro p hp
    rcases JMap.mem_set_nodup _ _ _ _ h1.roomKeys hp with rfl | ⟨hpm, _⟩
    · exact JMap.set_ne_nil _ _ _
    · exact h1.roomNonempty p hpm
  · intro p hp
    rcases JMap.mem_set_nodup _ _ _ _ h1.roomKeys hp with rfl | ⟨hpm, _⟩
    · intro q hq
      rcases JMap.mem_set_nodup _ _ _ _ hbase_nodup hq with rfl | ⟨hqm, _⟩
      · rfl
      · exact hbase_idEq q hqm
    · exact h1.idEq p hpm
  · intro p hp
    rcases JMap.mem_set_nodup _ _ _ _ h1.roomKeys hp with rfl | ⟨hpm, _⟩
    · intro q hq
      rcases JMap.mem_set_nodup _ _ _ _ hbase_nodup hq with rfl | ⟨hqm, _⟩
      · rfl
      · exact hbase_roomIdEq q hqm
    · exact h1.roomIdEq p hpm
  · intro p hp
    rcases JMap.mem_set_nodup _ _ _ _ h1.roomKeys hp with rfl | ⟨hpm, _⟩
    · rw [JMap.set_eq_append _ _ _ hbase_nosock]
      have hv : JMap.values ((JMap.get roomId st1.rooms).getD []
            ++ [(socketId, (⟨socketId, username, now, roomId⟩ : User))])
          = JMap.values ((JMap.get roomId st1.rooms).getD [])
            ++ [(⟨socketId, username, now, roomId⟩ : User)] := by
        simp [JMap.values]
      rw [hv, List.map_append]
      refine List.Nodup.append hbase_unames (by simp) ?_
      intro a ha hmem
      simp only [List.map_cons, List.map_nil, List.mem_singleton] at hmem
      obtain ⟨u, hu, hau⟩ := List.mem_map.mp ha
      have huname : u.username = username := by rw [hau, hmem]
      have hid := hnc u hu huname
      obtain ⟨q, hqm, hqu⟩ := (JMap.mem_values _ _).mp hu
      have : q.1 = socketId := by
        rw [← hid, ← hqu]
        exact (hbase_idEq q hqm).symm
      apply hnosock_keys
      rw [← this]
      exact List.mem_map_of_mem Prod.fst hqm
    · exact h1.unames p hpm
  · intro p hp
    rcases JMap.mem_set_nodup _ _ _ _ h1.roomKeys hp with rfl | ⟨hpm, _⟩
    · intro q hq
      rcases JMap.mem_set_nodup _ _ _ _ hbase_nodup hq with rfl | ⟨hqm, hqk⟩
      · exact JMap.get_set_self _ _ _
      · rw [JMap.get_set_ne _ _ _ _ hqk]
        exact hbase_registry q hqm
    · intro q hq
      have hqk : q.1 ≠ socketId := by
        intro hk
        have hget : JMap.get q.1 p.2 = some q.2 :=
          JMap.get_of_mem_nodup _ _ _ (h1.memKeys p hpm) hq
        have hhp : JMap.has socketId p.2 = true := by
          rw [← hk]
          simp [JMap.has, hget]
        rw [hnm p hpm] at hhp
        exact absurd hhp (by decide)
      rw [JMap.get_set_ne _ _ _ _ hqk]
      exact h1.registry p hpm q hq

/-- The join handler preserves well-formedness in all branches. -/
theorem joinRequest_wf (socketId : String) (roomIdOpt usernameOpt : Option String)
    (now : String) (st : ServerState) (h : WF st) :
    WF (joinRequest socketId roomIdOpt usernameOpt now st).1 := by
  by_cases hv : (falsy roomIdOpt || falsy usernameOpt) = true
  · rw [joinRequest_invalid_eq _ _ _ _ _ hv]
    exact h
  · have hv' : (falsy roomIdOpt || falsy usernameOpt) = false := by simpa using hv
    cases hfind : (getUsersInRoom st.rooms (roomIdOpt.getD "")).find?
        (fun user => user.username == usernameOpt.getD "" && user.id != socketId) with
    | some u =>
      rw [joinRequest_conflict_eq _ _ _ _ _ u hv' hfind]
      exact h
    | none =>
      rw [joinRequest_success_eq _ _ _ _ _ hv' hfind]
      have h1 := leaveCurrentRoom_wf socketId st h
      have hnm := leaveCurrentRoom_not_member socketId st h
      have hsub := leaveCurrentRoom_values_sub socketId st h
      have hnc : ∀ u ∈ JMap.values
          ((JMap.get (roomIdOpt.getD "") (leaveCurrentRoom socketId st).1).getD []),
          u.username = usernameOpt.getD "" → u.id = socketId := by
        intro u hu huname
        have hu' := hsub _ u hu
        have hfound := List.find?_eq_none.mp hfind u (by rw [getUsersInRoom_eq]; exact hu')
        simp only [Bool.and_eq_true, beq_iff_eq, bne_iff_ne, ne_eq, not_and, not_not] at hfound
        exact hfound huname
      exact wf_commit_join ⟨(leaveCurrentRoom socketId st).1, st.userSocketMap⟩ h1
        socketId (roomIdOpt.getD "") (usernameOpt.getD "") now hnm hnc

/-! ### Branch equations and preservation for the disconnect handler -/

theorem disconnectHandler_none_eq (socketId : String) (st : ServerState)
    (hg : getRoomForSocket st.rooms socketId = none) :
    disconnectHandler socketId st = (st, []) := by
  unfold disconnectHandler
  rw [hg]

theorem disconnectHandler_del_eq (socketId roomId : String) (st : ServerState)
    (room : JMap User) (user : User)
    (hg : getRoomForSocket st.rooms socketId = some roomId)
    (hroom : JMap.get roomId st.rooms = some room)
    (huser : JMap.get socketId room = some user)
    (hsz : JMap.size (JMap.delete socketId room) = 0) :
    disconnectHandler socketId st =
      (⟨JMap.delete roomId st.rooms, JMap.delete socketId st.userSocketMap⟩, []) := by
  unfold disconnectHandler
  simp only [hg, hroom, huser]
  simp [hsz]

theorem disconnectHandler_set_eq (socketId roomId : String) (st : ServerState)
    (room : JMap User) (user : User)
    (hg : getRoomForSocket st.rooms socketId = some roomId)
    (hroom : JMap.get roomId st.rooms = some room)
    (huser : JMap.get socketId room = some user)
    (hsz : ¬ JMap.size (JMap.delete socketId room) = 0) :
    disconnectHandler socketId st =
      (⟨JMap.set roomId (JMap.delete socketId room) st.rooms,
        JMap.delete socketId st.userSocketMap⟩,
       [⟨.toRoom roomId, "user-left", .userLeft socketId (some user.username)⟩]) := by
  unfold disconnectHandler
  simp only [hg, hroom, huser]
  simp [hsz]

/-- The disconnect handler preserves well-formedness. -/
theorem disconnectHandler_wf (socketId : String) (st : ServerState) (h : WF st) :
    WF (disconnectHandler socketId st).1 := by
  cases hg : getRoomForSocket st.rooms socketId with
  | none =>
    simp only [disconnectHandler_none_eq _ _ hg]
    exact h
  | some roomId =>
    obtain ⟨room, hroom, hhas⟩ := getRoomForSocket_get _ _ _ h.roomKeys hg
    obtain ⟨user, huser⟩ := Option.isSome_iff_exists.mp hhas
    have hmem : (roomId, room) ∈ st.rooms := JMap.get_some_mem _ _ _ hroom
    have hkey_ne : ∀ p ∈ st.rooms, p.1 ≠ roomId → ∀ q ∈ p.2, q.1 ≠ socketId := by
      intro p hpm hpk q hq hk
      have hget : JMap.get q.1 p.2 = some q.2 :=
        JMap.get_of_mem_nodup _ _ _ (h.memKeys p hpm) hq
      have hhp : JMap.has socketId p.2 = true := by
        rw [← hk]
        simp [JMap.has, hget]
      have hpq := h.disjointRooms hpm hmem hhp hhas
      exact hpk (by rw [hpq])
    by_cases hsz : JMap.size (JMap.delete socketId room) = 0
    · simp only [disconnectHandler_del_eq _ _ _ _ _ hg hroom huser hsz]
      constructor
      · exact List.Nodup.sublist (JMap.keys_delete_sublist _ _) h.roomKeys
      · intro p hp; exact h.memKeys p ((JMap.mem_delete _ _ _).mp hp).1
      · intro p hp; exact h.roomNonempty p ((JMap.mem_delete _ _ _).mp hp).1
      · intro p hp; exact h.idEq p ((JMap.mem_delete _ _ _).mp hp).1
      · intro p hp; exact h.roomIdEq p ((JMap.mem_delete _ _ _).mp hp).1
      · intro p hp; exact h.unames p ((JMap.mem_delete _ _ _).mp hp).1
      · intro p hp
        obtain ⟨hpm, hpk⟩ := (JMap.mem_delete _ _ _).mp hp
        intro q hq
        rw [JMap.get_delete_ne _ _ _ (hkey_ne p hpm hpk q hq)]
        exact h.registry p hpm q hq
    · simp only [disconnectHandler_set_eq _ _ _ _ _ hg hroom huser hsz]
      have hne : JMap.delete socketId room ≠ [] :=
        fun hnil => hsz ((JMap.size_eq_zero _).mpr hnil)
      have hhasroom : JMap.has roomId st.rooms = true := by simp [JMap.has, hroom]
      constructor
      · rw [JMap.keys_set_of_has _ _ _ hhasroom]
        exact h.roomKeys
      · intro p hp
        rcases JMap.mem_set_nodup _ _ _ _ h.roomKeys hp with rfl | ⟨hpm, _⟩
        · exact List.Nodup.sublist (JMap.keys_delete_sublist _ _) (h.memKeys _ hmem)
        · exact h.memKeys p hpm
      · intro p hp
        rcases JMap.mem_set_nodup _ _ _ _ h.roomKeys hp with rfl | ⟨hpm, _⟩
        · exact hne
        · exact h.roomNonempty p hpm
      · intro p hp
        rcases JMap.mem_set_nodup _ _ _ _ h.roomKeys hp with rfl | ⟨hpm, _⟩
        · intro q hq
          exact h.idEq _ hmem q ((JMap.mem_delete _ _ _).mp hq).1
        · exact h.idEq p hpm
      · intro p hp
        rcases JMap.mem_set_nodup _ _ _ _ h.roomKeys hp with rfl | ⟨hpm, _⟩
        · intro q hq
          exact h.roomIdEq _ hmem q ((JMap.mem_delete _ _ _).mp hq).1
        · exact h.roomIdEq p hpm
      · intro p hp
        rcases JMap.mem_set_nodup _ _ _ _ h.roomKeys hp with rfl | ⟨hpm, _⟩
        · have hsub : List.Sublist (JMap.values (JMap.delete socketId room))
              (JMap.values room) :=
            List.Sublist.map _ (JMap.delete_sublist _ _)
          exact List.Nodup.sublist (hsub.map _) (h.unames _ hmem)
        · exact h.unames p hpm
      · intro p hp
        rcases JMap.mem_set_nodup _ _ _ _ h.roomKeys hp with rfl | ⟨hpm, hpk⟩
        · intro q hq
          obtain ⟨hqm, hqk⟩ := (JMap.mem_delete _ _ _).mp hq
          rw [JMap.get_delete_ne _ _ _ hqk]
          exact h.registry _ hmem q hqm
        · intro q hq
          rw [JMap.get_delete_ne _ _ _ (hkey_ne p hpm hpk q hq)]
          exact h.registry p hpm q hq

/-- Every registered handler preserves well-formedness. -/
theorem step_wf (e : InEvent) (st : ServerState) (h : WF st) : WF (step e st).1 := by
  cases e with
  | joinReq s r u now => exact joinRequest_wf s r u now st h
  | codeChg s r c p f t =>
    show WF (codeChange s r c p f t st).1
    unfold codeChange
    by_cases hv : falsy r = true
    · rw [if_pos hv]; exact h
    · rw [if_neg hv]; exact h
  | leaveRoomEv s r => exact h
  | disconnectEv s reason => exact disconnectHandler_wf s st h

/-- Every reachable state is well-formed. -/
theorem reachable_wf (st : ServerState) (h : Reachable st) : WF st := by
  induction h with
  | init => exact wf_init
  | next e st' h ih => exact step_wf e st' ih

/-- After a disconnect, the socket is a member of no room. -/
theorem disconnectHandler_not_member (socketId : String) (st : ServerState) (h : WF st) :
    ∀ p ∈ (disconnectHandler socketId st).1.rooms, JMap.has socketId p.2 = false := by
  cases hg : getRoomForSocket st.rooms socketId with
  | none =>
    simp only [disconnectHandler_none_eq _ _ hg]
    exact (getRoomForSocket_eq_none_iff _ _).mp hg
  | some roomId =>
    obtain ⟨room, hroom, hhas⟩ := getRoomForSocket_get _ _ _ h.roomKeys hg
    obtain ⟨user, huser⟩ := Option.isSome_iff_exists.mp hhas
    have hmem : (roomId, room) ∈ st.rooms := JMap.get_some_mem _ _ _ hroom
    by_cases hsz : JMap.size (JMap.delete socketId room) = 0
    · simp only [disconnectHandler_del_eq _ _ _ _ _ hg hroom huser hsz]
      intro p hp
      obtain ⟨hpm, hpk⟩ := (JMap.mem_delete _ _ _).mp hp
      cases hb : JMap.has socketId p.2
      · rfl
      · exfalso
        have hpq := h.disjointRooms hpm hmem hb hhas
        exact hpk (by rw [hpq])
    · simp only [disconnectHandler_set_eq _ _ _ _ _ hg hroom huser hsz]
      intro p hp
      rcases JMap.mem_set_nodup _ _ _ _ h.roomKeys hp with rfl | ⟨hpm, hpk⟩
      · simp [JMap.has, JMap.get_delete_self]
      · cases hb : JMap.has socketId p.2
        · rfl
        · exfalso
          have hpq := h.disjointRooms hpm hmem hb hhas
          exact hpk (by rw [hpq])

/-! ### Claim theorems -/

/-- C2: in every state reachable by any sequence of join-request, code-change
and disconnect events, the member usernames of every room in the directory are
pairwise distinct. -/
theorem room_usernames_distinct (st : ServerState) (h : Reachable st) :
    ∀ p ∈ st.rooms, ((JMap.values p.2).map User.username).Nodup :=
  (reachable_wf st h).unames

theorem room_usernames_distinct_witness :
    ((JMap.values [("A", (⟨"A", "alice", "t0", "r1"⟩ : User)),
                   ("B", (⟨"B", "bob", "t1", "r1"⟩ : User))]).map User.username).Nodup :=
  room_usernames_distinct _
    (Reachable.next (.joinReq "B" (some "r1") (some "bob") "t1")
      _ (Reachable.next (.joinReq "A" (some "r1") (some "alice") "t0") _ Reachable.init))
    ("r1", [("A", ⟨"A", "alice", "t0", "r1"⟩), ("B", ⟨"B", "bob", "t1", "r1"⟩)])
    (by decide)

/-- C3: a join-request whose `roomId` or `username` is missing or empty fails
with the validation error synchronously via the acknowledgment, emits nothing,
and leaves the whole state (room directory and connection registry) unchanged. -/
theorem requestJoin_validation_error (socketId : String)
    (roomIdOpt usernameOpt : Option String) (now : String) (st : ServerState)
    (hv : falsy roomIdOpt = true ∨ falsy usernameOpt = true) :
    joinRequest socketId roomIdOpt usernameOpt now st
      = (st, [], .ackError "Room ID and username are required") :=
  joinRequest_invalid_eq _ _ _ _ _ (by rcases hv with hh | hh <;> simp [hh])

theorem requestJoin_validation_error_witness :
    (falsy (some "") = true ∨ falsy (some "alice") = true) ∧
    joinRequest "A" (some "") (some "alice") "t0" initState
      = (initState, [], .ackError "Room ID and username are required") :=
  ⟨Or.inl (by decide),
   requestJoin_validation_error "A" (some "") (some "alice") "t0" initState
     (Or.inl (by decide))⟩

/-- C8: in every reachable state, a room id has an entry in the directory iff
its member count is positive. -/
theorem room_exists_iff_members (st : ServerState) (h : Reachable st) :
    ∀ roomId, JMap.has roomId st.rooms = true
      ↔ 0 < JMap.size ((JMap.get roomId st.rooms).getD []) := by
  intro roomId
  constructor
  · intro hh
    obtain ⟨m, hm⟩ := Option.isSome_iff_exists.mp hh
    have hmem := JMap.get_some_mem _ _ _ hm
    have hne := (reachable_wf st h).roomNonempty _ hmem
    rw [hm]
    simpa [JMap.size] using List.length_pos.mpr hne
  · intro hh
    cases hget : JMap.get roomId st.rooms with
    | none => rw [hget] at hh; simp [JMap.size] at hh
    | some m => simp [JMap.has, hget]

theorem room_exists_iff_members_witness :
    JMap.has "r1"
        (step (.disconnectEv "A" "client close")
          (step (.joinReq "A" (some "r1") (some "alice") "t0") initState).1).1.rooms = true
      ↔ 0 < JMap.size ((JMap.get "r1"
          (step (.disconnectEv "A" "client close")
            (step (.joinReq "A" (some "r1") (some "alice") "t0") initState).1).1.rooms).getD []) :=
  room_exists_iff_members _
    (Reachable.next (.disconnectEv "A" "client close")
      _ (Reachable.next (.joinReq "A" (some "r1") (some "alice") "t0") _ Reachable.init))
    "r1"

/-- C9: the disconnect handler is idempotent: for a connection in no room it is
a strict no-op (state unchanged, nothing emitted), and in any reachable state a
second invocation for the same connection is such a no-op, so running it twice
equals running it once. -/
theorem disconnect_idempotent (socketId : String) (st : ServerState) (h : Reachable st) :
    (getRoomForSocket st.rooms socketId = none → disconnectHandler socketId st = (st, [])) ∧
    disconnectHandler socketId (disconnectHandler socketId st).1
      = ((disconnectHandler socketId st).1, []) := by
  constructor
  · exact disconnectHandler_none_eq socketId st
  · apply disconnectHandler_none_eq
    rw [getRoomForSocket_eq_none_iff]
    exact disconnectHandler_not_member socketId st (reachable_wf st h)

theorem disconnect_idempotent_witness :
    (getRoomForSocket
        (step (.joinReq "A" (some "r1") (some "alice") "t0") initState).1.rooms "B" = none →
      disconnectHandler "B" (step (.joinReq "A" (some "r1") (some "alice") "t0") initState).1
        = ((step (.joinReq "A" (some "r1") (some "alice") "t0") initState).1, [])) ∧
    disconnectHandler "B"
        (disconnectHandler "B"
          (step (.joinReq "A" (some "r1") (some "alice") "t0") initState).1).1
      = ((disconnectHandler "B"
          (step (.joinReq "A" (some "r1") (some "alice") "t0") initState).1).1, []) :=
  disconnect_idempotent "B" _
    (Reachable.next (.joinReq "A" (some "r1") (some "alice") "t0") _ Reachable.init)

/-- C7: a code-change for room `r` leaves the state unchanged and relays a
single code-update carrying the same code, cursorPos and filePath plus the
sender id and the timestamp, delivered exactly to the members of `r` other
than the sender; the sender itself never receives it. -/
theorem codeChange_broadcast (socketId r : String) (hr : r ≠ "")
    (code cursorPos filePath : String) (ts : Nat) (st : ServerState) :
    (codeChange socketId (some r) code cursorPos filePath ts st).1 = st ∧
    (codeChange socketId (some r) code cursorPos filePath ts st).2
      = [⟨.toRoomExcept r socketId, "code-update",
          .codeUpdate code cursorPos filePath socketId ts⟩] ∧
    (∀ x, deliveredTo (codeChange socketId (some r) code cursorPos filePath ts st).1.rooms x
        ⟨.toRoomExcept r socketId, "code-update",
         .codeUpdate code cursorPos filePath socketId ts⟩ = true
      ↔ (x ≠ socketId ∧ JMap.has x ((JMap.get r st.rooms).getD []) = true)) ∧
    deliveredTo (codeChange socketId (some r) code cursorPos filePath ts st).1.rooms socketId
      ⟨.toRoomExcept r socketId, "code-update",
       .codeUpdate code cursorPos filePath socketId ts⟩ = false := by
  have hfr : falsy (some r) = false := by simp [falsy, hr]
  unfold codeChange
  rw [if_neg (by simp [hfr])]
  refine ⟨rfl, rfl, ?_, ?_⟩
  · intro x
    simp [deliveredTo]
  · simp [deliveredTo]

theorem codeChange_broadcast_witness :
    (("r1" : String) ≠ "") ∧
    deliveredTo
      (codeChange "A" (some "r1") "x=1" "p5" "main.js" 42
        ⟨[("r1", [("A", ⟨"A", "alice", "t0", "r1"⟩), ("B", ⟨"B", "bob", "t0", "r1"⟩)])],
         [("A", ⟨"A", "alice", "t0", "r1"⟩), ("B", ⟨"B", "bob", "t0", "r1"⟩)]⟩).1.rooms "B"
      ⟨.toRoomExcept "r1" "A", "code-update", .codeUpdate "x=1" "p5" "main.js" "A" 42⟩ = true ∧
    deliveredTo
      (codeChange "A" (some "r1") "x=1" "p5" "main.js" 42
        ⟨[("r1", [("A", ⟨"A", "alice", "t0", "r1"⟩), ("B", ⟨"B", "bob", "t0", "r1"⟩)])],
         [("A", ⟨"A", "alice", "t0", "r1"⟩), ("B", ⟨"B", "bob", "t0", "r1"⟩)]⟩).1.rooms "A"
      ⟨.toRoomExcept "r1" "A", "code-update", .codeUpdate "x=1" "p5" "main.js" "A" 42⟩ = false := by
  refine ⟨by decide, ?_, ?_⟩
  · exact ((codeChange_broadcast "A" "r1" (by decide) "x=1" "p5" "main.js" 42 _).2.2.1 "B").mpr
      ⟨by decide, by decide⟩
  · exact (codeChange_broadcast "A" "r1" (by decide) "x=1" "p5" "main.js" 42 _).2.2.2

/-- C10: the relay imposes no sender-membership precondition: even when the
sending connection is not recorded as a member of the target room, the
code-update is still emitted and every member of the target room receives it —
delivery depends only on the membership of the target room. -/
theorem codeChange_no_sender_membership (socketId r : String) (hr : r ≠ "")
    (code cursorPos filePath : String) (ts : Nat) (st : ServerState)
    (hns : JMap.has socketId ((JMap.get r st.rooms).getD []) = false) :
    (codeChange socketId (some r) code cursorPos filePath ts st).2
      = [⟨.toRoomExcept r socketId, "code-update",
          .codeUpdate code cursorPos filePath socketId ts⟩] ∧
    (∀ x, JMap.has x ((JMap.get r st.rooms).getD []) = true →
      deliveredTo (codeChange socketId (some r) code cursorPos filePath ts st).1.rooms x
        ⟨.toRoomExcept r socketId, "code-update",
         .codeUpdate code cursorPos filePath socketId ts⟩ = true) := by
  unfold codeChange
  rw [if_neg (by simp [falsy, hr])]
  refine ⟨rfl, ?_⟩
  intro x hx
  have hxs : x ≠ socketId := by
    intro hk
    rw [hk] at hx
    rw [hns] at hx
    exact absurd hx (by decide)
  simp [deliveredTo, hxs, hx]

theorem codeChange_no_sender_membership_witness :
    (("r1" : String) ≠ "") ∧
    JMap.has "A" ((JMap.get "r1"
      (⟨[("r1", [("B", ⟨"B", "bob", "t0", "r1"⟩)])],
        [("B", ⟨"B", "bob", "t0", "r1"⟩)]⟩ : ServerState).rooms).getD []) = false ∧
    deliveredTo
      (codeChange "A" (some "r1") "x=1" "p5" "main.js" 42
        ⟨[("r1", [("B", ⟨"B", "bob", "t0", "r1"⟩)])],
         [("B", ⟨"B", "bob", "t0", "r1"⟩)]⟩).1.rooms "B"
      ⟨.toRoomExcept "r1" "A", "code-update", .codeUpdate "x=1" "p5" "main.js" "A" 42⟩ = true := by
  refine ⟨by decide, by decide, ?_⟩
  exact (codeChange_no_sender_membership "A" "r1" (by decide) "x=1" "p5" "main.js" 42 _
    (by decide)).2 "B" (by decide)

/-- C1 (code-bug exhibit): with room "r1" already holding username "bob" under
connection "B", a join-request from a different connection "A" for
("r1", "bob") is refused: the acknowledgment is an error and no state changes,
and exactly one event is emitted, to the requester only — but its event name is
`username_exists`, whereas the client subscribes to
`SocketEvent.USERNAME_EXISTS = "username-exists"`, so the promised
`username-exists{error}` event never reaches the requester. -/
theorem join_conflict_event_name_bug :
    joinRequest "A" (some "r1") (some "bob") "t1"
        ⟨[("r1", [("B", ⟨"B", "bob", "t0", "r1"⟩)])], [("B", ⟨"B", "bob", "t0", "r1"⟩)]⟩
      = (⟨[("r1", [("B", ⟨"B", "bob", "t0", "r1"⟩)])], [("B", ⟨"B", "bob", "t0", "r1"⟩)]⟩,
         [⟨.toSocket "A", "username_exists",
           .errorMsg "Username \x27bob\x27 is already taken in this room"⟩],
         .ackError "Username \x27bob\x27 is already taken in this room") ∧
    "username_exists" ≠ "username-exists" := by
  constructor
  · decide
  · decide

/-- C5 counterexample: with connection "A" a member of room "r1", receipt of an
explicit `leave-room{roomId}` event changes nothing — the strict server
registers no listener for `leave-room`, so the membership survives, refuting
the claim that the explicit leave request removes it. -/
theorem leaveRoom_event_ignored :
    step (.leaveRoomEv "A" (some "r1"))
        ⟨[("r1", [("A", ⟨"A", "alice", "t0", "r1"⟩)])], [("A", ⟨"A", "alice", "t0", "r1"⟩)]⟩
      = (⟨[("r1", [("A", ⟨"A", "alice", "t0", "r1"⟩)])],
          [("A", ⟨"A", "alice", "t0", "r1"⟩)]⟩, []) ∧
    JMap.has "A" ((JMap.get "r1"
      (step (.leaveRoomEv "A" (some "r1"))
        ⟨[("r1", [("A", ⟨"A", "alice", "t0", "r1"⟩)])],
         [("A", ⟨"A", "alice", "t0", "r1"⟩)]⟩).1.rooms).getD []) = true := by
  constructor
  · rfl
  · decide

/-- C5 (amended): the explicit `leave-room` event is ignored (no handler), and
the membership removal is carried out by the transport disconnect the client
issues right after emitting it: the disconnect removes the connection from the
room directory and the connection registry, deletes the room when it becomes
empty, and otherwise notifies exactly the remaining members. -/
theorem leaveRoom_noop_disconnect_cleans (socketId : String) (roomIdOpt : Option String)
    (reason : String) (st : ServerState) (h : Reachable st)
    (X : String) (hX : getRoomForSocket st.rooms socketId = some X) :
    step (.leaveRoomEv socketId roomIdOpt) st = (st, []) ∧
    (∀ p ∈ (step (.disconnectEv socketId reason) st).1.rooms,
      JMap.has socketId p.2 = false) ∧
    JMap.get socketId (step (.disconnectEv socketId reason) st).1.userSocketMap = none ∧
    (if JMap.size (JMap.delete socketId ((JMap.get X st.rooms).getD [])) = 0 then
      JMap.get X (step (.disconnectEv socketId reason) st).1.rooms = none ∧
      (step (.disconnectEv socketId reason) st).2 = []
    else ∃ u : User,
      JMap.get socketId ((JMap.get X st.rooms).getD []) = some u ∧
      (step (.disconnectEv socketId reason) st).2
        = [⟨.toRoom X, "user-left", .userLeft socketId (some u.username)⟩] ∧
      JMap.get X (step (.disconnectEv socketId reason) st).1.rooms
        = some (JMap.delete socketId ((JMap.get X st.rooms).getD [])) ∧
      (∀ x, deliveredTo (step (.disconnectEv socketId reason) st).1.rooms x
          ⟨.toRoom X, "user-left", .userLeft socketId (some u.username)⟩ = true
        ↔ JMap.has x (JMap.delete socketId ((JMap.get X st.rooms).getD [])) = true)) := by
  have hwf := reachable_wf st h
  obtain ⟨room, hroom, hhas⟩ := getRoomForSocket_get _ _ _ hwf.roomKeys hX
  obtain ⟨u, hu⟩ := Option.isSome_iff_exists.mp hhas
  have hgd : (JMap.get X st.rooms).getD [] = room := by rw [hroom]; rfl
  refine ⟨rfl, ?_, ?_, ?_⟩
  · exact disconnectHandler_not_member socketId st hwf
  · show JMap.get socketId (disconnectHandler socketId st).1.userSocketMap = none
    by_cases hsz : JMap.size (JMap.delete socketId room) = 0
    · simp only [disconnectHandler_del_eq _ _ _ _ _ hX hroom hu hsz]
      exact JMap.get_delete_self _ _
    · simp only [disconnectHandler_set_eq _ _ _ _ _ hX hroom hu hsz]
      exact JMap.get_delete_self _ _
  · rw [hgd]
    by_cases hsz : JMap.size (JMap.delete socketId room) = 0
    · rw [if_pos hsz]
      constructor
      · show JMap.get X (disconnectHandler socketId st).1.rooms = none
        simp only [disconnectHandler_del_eq _ _ _ _ _ hX hroom hu hsz]
        exact JMap.get_delete_self _ _
      · show (disconnectHandler socketId st).2 = []
        simp only [disconnectHandler_del_eq _ _ _ _ _ hX hroom hu hsz]
    · rw [if_neg hsz]
      refine ⟨u, hu, ?_, ?_, ?_⟩
      · show (disconnectHandler socketId st).2 = _
        simp only [disconnectHandler_set_eq _ _ _ _ _ hX hroom hu hsz]
      · show JMap.get X (disconnectHandler socketId st).1.rooms = _
        simp only [disconnectHandler_set_eq _ _ _ _ _ hX hroom hu hsz]
        exact JMap.get_set_self _ _ _
      · intro x
        show deliveredTo (disconnectHandler socketId st).1.rooms x _ = true ↔ _
        simp only [disconnectHandler_set_eq _ _ _ _ _ hX hroom hu hsz]
        simp [deliveredTo, JMap.get_set_self]

theorem leaveRoom_noop_disconnect_cleans_witness :
    step (.leaveRoomEv "A" (some "r1"))
        (step (.joinReq "B" (some "r1") (some "bob") "t1")
          (step (.joinReq "A" (some "r1") (some "alice") "t0") initState).1).1
      = ((step (.joinReq "B" (some "r1") (some "bob") "t1")
          (step (.joinReq "A" (some "r1") (some "alice") "t0") initState).1).1, []) ∧
    JMap.get "A" (step (.disconnectEv "A" "transport close")
        (step (.joinReq "B" (some "r1") (some "bob") "t1")
          (step (.joinReq "A" (some "r1") (some "alice") "t0") initState).1).1).1.userSocketMap
      = none := by
  have hmain := leaveRoom_noop_disconnect_cleans "A" (some "r1") "transport close" _
    (Reachable.next (.joinReq "B" (some "r1") (some "bob") "t1")
      _ (Reachable.next (.joinReq "A" (some "r1") (some "alice") "t0") _ Reachable.init))
    "r1" (by decide)
  exact ⟨hmain.1, hmain.2.2.1⟩

/-- C6: on every successful join, the requester — and only the requester —
receives the success acknowledgment (callback and join-accepted event) carrying
the committed profile and the full membership snapshot including the new user,
and every other current member of the room — never the requester — receives
the user-joined notification carrying the new user. -/
theorem join_success_ack_and_notify (socketId : String)
    (roomIdOpt usernameOpt : Option String) (now : String) (st : ServerState)
    (hv : (falsy roomIdOpt || falsy usernameOpt) = false)
    (hfind : (getUsersInRoom st.rooms (roomIdOpt.getD "")).find?
        (fun user => user.username == usernameOpt.getD "" && user.id != socketId) = none) :
    (joinRequest socketId roomIdOpt usernameOpt now st).2.2
      = .ackSuccess (roomIdOpt.getD "")
          (getUsersInRoom (joinRequest socketId roomIdOpt usernameOpt now st).1.rooms
            (roomIdOpt.getD "")) socketId ∧
    (⟨socketId, usernameOpt.getD "", now, roomIdOpt.getD ""⟩ : User)
      ∈ getUsersInRoom (joinRequest socketId roomIdOpt usernameOpt now st).1.rooms
          (roomIdOpt.getD "") ∧
    ⟨.toSocket socketId, "join-accepted",
      .joinAccepted socketId (usernameOpt.getD "") (roomIdOpt.getD "")
        (getUsersInRoom (joinRequest socketId roomIdOpt usernameOpt now st).1.rooms
          (roomIdOpt.getD ""))⟩ ∈ (joinRequest socketId roomIdOpt usernameOpt now st).2.1 ∧
    (∀ x, deliveredTo (joinRequest socketId roomIdOpt usernameOpt now st).1.rooms x
        ⟨.toSocket socketId, "join-accepted",
         .joinAccepted socketId (usernameOpt.getD "") (roomIdOpt.getD "")
           (getUsersInRoom (joinRequest socketId roomIdOpt usernameOpt now st).1.rooms
             (roomIdOpt.getD ""))⟩ = true ↔ x = socketId) ∧
    ⟨.toRoomExcept (roomIdOpt.getD "") socketId, "user-joined",
      .userJoined socketId (usernameOpt.getD "") now (roomIdOpt.getD "")⟩
      ∈ (joinRequest socketId roomIdOpt usernameOpt now st).2.1 ∧
    (∀ x, deliveredTo (joinRequest socketId roomIdOpt usernameOpt now st).1.rooms x
        ⟨.toRoomExcept (roomIdOpt.getD "") socketId, "user-joined",
         .userJoined socketId (usernameOpt.getD "") now (roomIdOpt.getD "")⟩ = true
      ↔ (x ≠ socketId ∧
         JMap.has x ((JMap.get (roomIdOpt.getD "")
           (joinRequest socketId roomIdOpt usernameOpt now st).1.rooms).getD []) = true)) := by
  have hsucc := joinRequest_success_eq socketId roomIdOpt usernameOpt now st hv hfind
  refine ⟨?_, ?_, ?_, ?_, ?_, ?_⟩
  · simp only [hsucc]
  · simp only [hsucc, getUsersInRoom_eq, JMap.get_set_self, Option.getD_some]
    exact JMap.mem_values_of_get socketId _ _ (JMap.get_set_self _ _ _)
  · simp only [hsucc]
    exact List.mem_append_right _ (List.mem_cons_self _ _)
  · intro x
    simp only [hsucc]
    simp [deliveredTo]
  · simp only [hsucc]
    exact List.mem_append_right _ (List.mem_cons_of_mem _ (List.mem_cons_self _ _))
  · intro x
    simp only [hsucc]
    simp [deliveredTo]

theorem join_success_ack_and_notify_witness :
    ((falsy (some "r1") || falsy (some "alice")) = false) ∧
    (joinRequest "A" (some "r1") (some "alice") "t0" initState).2.2
      = .ackSuccess "r1"
          (getUsersInRoom
            (joinRequest "A" (some "r1") (some "alice") "t0" initState).1.rooms "r1") "A" ∧
    (⟨"A", "alice", "t0", "r1"⟩ : User)
      ∈ getUsersInRoom
          (joinRequest "A" (some "r1") (some "alice") "t0" initState).1.rooms "r1" := by
  have hmain := join_success_ack_and_notify "A" (some "r1") (some "alice") "t0" initState
    (by decide) (by decide)
  exact ⟨by decide, hmain.1, hmain.2.1⟩

/-- C4: a successful join by a connection currently in room X into a different
room Y removes the connection from X first — deleting X when it becomes empty,
otherwise emitting the user-left notification with the connection id and its
username to the remaining members of X, ahead of the join notifications — and then
inserts it into Y, so that after commit the connection is a member of Y only. -/
theorem join_switch_rooms (socketId : String) (roomIdOpt usernameOpt : Option String)
    (now : String) (st : ServerState) (h : Reachable st) (X : String)
    (hX : getRoomForSocket st.rooms socketId = some X)
    (hv : (falsy roomIdOpt || falsy usernameOpt) = false)
    (hfind : (getUsersInRoom st.rooms (roomIdOpt.getD "")).find?
        (fun user => user.username == usernameOpt.getD "" && user.id != socketId) = none)
    (hXY : roomIdOpt.getD "" ≠ X) :
    JMap.has socketId ((JMap.get (roomIdOpt.getD "")
        (joinRequest socketId roomIdOpt usernameOpt now st).1.rooms).getD []) = true ∧
    (∀ p ∈ (joinRequest socketId roomIdOpt usernameOpt now st).1.rooms,
      p.1 ≠ roomIdOpt.getD "" → JMap.has socketId p.2 = false) ∧
    (if JMap.size (JMap.delete socketId ((JMap.get X st.rooms).getD [])) = 0 then
      JMap.get X (joinRequest socketId roomIdOpt usernameOpt now st).1.rooms = none ∧
      (joinRequest socketId roomIdOpt usernameOpt now st).2.1
        = [⟨.toSocket socketId, "join-accepted",
            .joinAccepted socketId (usernameOpt.getD "") (roomIdOpt.getD "")
              (getUsersInRoom (joinRequest socketId roomIdOpt usernameOpt now st).1.rooms
                (roomIdOpt.getD ""))⟩,
           ⟨.toRoomExcept (roomIdOpt.getD "") socketId, "user-joined",
            .userJoined socketId (usernameOpt.getD "") now (roomIdOpt.getD "")⟩]
    else ∃ u : User,
      JMap.get socketId ((JMap.get X st.rooms).getD []) = some u ∧
      (joinRequest socketId roomIdOpt usernameOpt now st).2.1
        = ⟨.toRoomExcept X socketId, "user-left", .userLeft socketId (some u.username)⟩
          :: [⟨.toSocket socketId, "join-accepted",
               .joinAccepted socketId (usernameOpt.getD "") (roomIdOpt.getD "")
                 (getUsersInRoom (joinRequest socketId roomIdOpt usernameOpt now st).1.rooms
                   (roomIdOpt.getD ""))⟩,
              ⟨.toRoomExcept (roomIdOpt.getD "") socketId, "user-joined",
               .userJoined socketId (usernameOpt.getD "") now (roomIdOpt.getD "")⟩] ∧
      JMap.get X (joinRequest socketId roomIdOpt usernameOpt now st).1.rooms
        = some (JMap.delete socketId ((JMap.get X st.rooms).getD [])) ∧
      (∀ x, deliveredTo (joinRequest socketId roomIdOpt usernameOpt now st).1.rooms x
          ⟨.toRoomExcept X socketId, "user-left", .userLeft socketId (some u.username)⟩ = true
        ↔ (x ≠ socketId ∧
           JMap.has x (JMap.delete socketId ((JMap.get X st.rooms).getD [])) = true))) := by
  have hwf := reachable_wf st h
  obtain ⟨mX, hmX, hhasX⟩ := getRoomForSocket_get _ _ _ hwf.roomKeys hX
  have hgd : (JMap.get X st.rooms).getD [] = mX := by rw [hmX]; rfl
  obtain ⟨u, hu⟩ := Option.isSome_iff_exists.mp hhasX
  have hmem : (X, mX) ∈ st.rooms := JMap.get_some_mem _ _ _ hmX
  have hwf1 := leaveCurrentRoom_wf socketId st hwf
  have hnm1 := leaveCurrentRoom_not_member socketId st hwf
  have hsucc := joinRequest_success_eq socketId roomIdOpt usernameOpt now st hv hfind
  have hXY' : X ≠ roomIdOpt.getD "" := Ne.symm hXY
  refine ⟨?_, ?_, ?_⟩
  · simp only [hsucc, JMap.get_set_self, Option.getD_some]
    exact (JMap.has_set _ _ _ _).mpr (Or.inl rfl)
  · intro p hp hpY
    simp only [hsucc] at hp
    rcases JMap.mem_set_nodup _ _ _ _ hwf1.roomKeys hp with heq | ⟨hpm, _⟩
    · exact absurd (by rw [heq]) hpY
    · exact hnm1 p hpm
  · rw [hgd]
    by_cases hsz : JMap.size (JMap.delete socketId mX) = 0
    · rw [if_pos hsz]
      have hleq := leaveCurrentRoom_del_eq socketId X st mX hX hmX hsz
      constructor
      · simp only [hsucc, hleq]
        rw [JMap.get_set_ne _ _ _ _ hXY']
        exact JMap.get_delete_self _ _
      · simp only [hsucc, hleq, List.nil_append]
    · rw [if_neg hsz]
      have hleq := leaveCurrentRoom_set_eq socketId X st mX hX hmX hsz
      have hreg : JMap.get socketId st.userSocketMap = some u :=
        hwf.registry (X, mX) hmem (socketId, u) (JMap.get_some_mem _ _ _ hu)
      refine ⟨u, hu, ?_, ?_, ?_⟩
      · simp only [hsucc, hleq, hreg, Option.map_some', List.cons_append, List.nil_append]
      · simp only [hsucc, hleq]
        rw [JMap.get_set_ne _ _ _ _ hXY']
        exact JMap.get_set_self _ _ _
      · intro x
        simp only [hsucc, hleq]
        simp [deliveredTo, JMap.get_set_ne _ _ _ _ hXY', JMap.get_set_self]

theorem join_switch_rooms_witness :
    JMap.has "A" ((JMap.get "r2"
      (joinRequest "A" (some "r2") (some "alice") "t2"
        (step (.joinReq "B" (some "r1") (some "bob") "t1")
          (step (.joinReq "A" (some "r1") (some "alice") "t0") initState).1).1).1.rooms).getD [])
      = true :=
  (join_switch_rooms "A" (some "r2") (some "alice") "t2" _
    (Reachable.next (.joinReq "B" (some "r1") (some "bob") "t1")
      _ (Reachable.next (.joinReq "A" (some "r1") (some "alice") "t0") _ Reachable.init))
    "r1" (by decide) (by decide) (by decide) (by decide)).1
